import Mathlib

/-!
Verification of the AppRemover engine (`app_remover.py`).

The definitions below are a shallow embedding of the core engine class
`AppRemoverEngine`.  External collaborators (the filesystem, the Spotlight
index, the package registry, the live process table) are modelled as
explicit environment records; the engine functions are translated from the
Python source line by line.  `home` stands for the expansion of `~`.
Python truthiness of optional strings (`None` and `""` are falsy) is
modelled by `truthy`, Python's substring operator `in` by `strContains`,
and `os.path.join` by `pjoin`.
-/

namespace AppRemover

/-- Python truthiness for an optional string: `None` and `""` are falsy. -/
def truthy : Option String → Bool
  | none => false
  | some s => s != ""

/-- Python's substring test `sub in s` (code-point infix). -/
def strContains (s sub : String) : Bool :=
  decide (sub.toList <:+: s.toList)

/-- Removing every occurrence of a pattern from a character list, scanning
left to right and continuing after each removed occurrence — the semantics
of Python's `s.replace(pat, "")`.  The fuel argument (always instantiated
with the list length) keeps the recursion structural. -/
def removeAllCharsAux (pat : List Char) : Nat → List Char → List Char
  | _, [] => []
  | 0, s => s
  | Nat.succ n, c :: rest =>
    if pat ≠ [] ∧ pat <+: (c :: rest) then
      removeAllCharsAux pat n ((c :: rest).drop pat.length)
    else c :: removeAllCharsAux pat n rest

/-- Python `s.replace(pat, "")`. -/
def pyRemoveAll (s pat : String) : String :=
  ⟨removeAllCharsAux pat.toList s.toList.length s.toList⟩

/-- Python `s.split(sep)` for a one-character separator: `""` splits to
`[""]`, `".."` splits to `["", "", ""]`. -/
def splitSep (sep : Char) : List Char → List (List Char)
  | [] => [[]]
  | c :: rest =>
    let r := splitSep sep rest
    if c == sep then [] :: r
    else
      match r with
      | [] => [[c]]
      | h :: t => (c :: h) :: t

/-- Python `s.lower()` (ASCII case folding). -/
def pyLower (s : String) : String := ⟨s.toList.map Char.toLower⟩

/-- Python `s.startswith(pre)`. -/
def pyStarts (s pre : String) : Bool := decide (pre.toList <+: s.toList)

/-- Python `s.endswith(suf)`. -/
def pyEnds (s suf : String) : Bool := decide (suf.toList <:+ s.toList)

/-- Model of `os.path.join a b` for the cases arising in the source: an absolute
second component replaces the first, otherwise the parts are joined with a
single separator. -/
def pjoin (a b : String) : String :=
  if a == "" then b
  else if pyStarts b "/" then b
  else if pyEnds a "/" then a ++ b
  else a ++ "/" ++ b

/-- A list-of-characters version of `s.startswith t`; a starting part
yields a substring occurrence. -/
theorem strContains_of_pref {s sub : String} (h : sub.toList <+: s.toList) :
    strContains s sub = true := by
  rcases h with ⟨t, ht⟩
  exact decide_eq_true ⟨[], t, by simpa using ht⟩

/-! ## Safety gate (`_is_safe_to_delete_candidate`, `secure_delete`) -/

/-- The exact-match denylist `forbidden_exact` from
`_is_safe_to_delete_candidate` (source lines 492-498). -/
def forbidden_exact (home : String) : List String :=
  [home,
   home ++ "/Desktop",
   home ++ "/Documents",
   home ++ "/Downloads",
   "/Applications"]

/-- Embedding of `_is_safe_to_delete_candidate` (source lines 491-500): a path passes
unless it is exactly one of the denylist paths. -/
def is_safe_to_delete_candidate (home path : String) : Bool :=
  !(decide (path ∈ forbidden_exact home))

/-- The externally observable outcome of one `secure_delete` call:
`noop` (falsy or non-existing path, silent return), `blockedPkg`
(the "SAFETY BLOCKED: Skipping PKG receipt deletion" log, no mutation),
`blockedUnsafe` (the "SAFETY BLOCKED: Item protected" log, no mutation),
or `trashed` (the Finder trash-move is issued). -/
inductive DeleteOutcome where
  | noop
  | blockedPkg
  | blockedUnsafe
  | trashed
deriving DecidableEq, Repr

/-- Whether the outcome mutates the filesystem (only the trash-move does). -/
def mutatesFilesystem : DeleteOutcome → Bool
  | .trashed => true
  | _ => false

/-- Whether the outcome writes one of the two "SAFETY BLOCKED" log lines:
a deliberate policy decision, logged, with no error raised. -/
def logsSafetyBlocked : DeleteOutcome → Bool
  | .blockedPkg => true
  | .blockedUnsafe => true
  | _ => false

/-- Embedding of `secure_delete` (source lines 237-266).  `pathExists` models
`os.path.exists`.  The receipt check is Python's substring operator on the
path; the admission filter is re-run before the move. -/
def secure_delete (home : String) (pathExists : String → Bool)
    (path : Option String) (force_pkgs : Bool) : DeleteOutcome :=
  match path with
  | none => .noop
  | some p =>
    if p == "" || !pathExists p then .noop
    else if (strContains p "/var/db/receipts" || strContains p "/Library/Receipts")
        && !force_pkgs then .blockedPkg
    else if !is_safe_to_delete_candidate home p then .blockedUnsafe
    else .trashed

/-- A path lying under one of the two package-receipt storage roots
(path-string starts with the root). -/
def underReceiptsRoot (p : String) : Bool :=
  decide ("/var/db/receipts".toList <+: p.toList)
    || decide ("/Library/Receipts".toList <+: p.toList)

/-- C1: for every path and both values of the package override, a
denylisted path is never trash-moved: the admission filter is re-checked
inside `secure_delete` before any move. -/
theorem secure_delete_denylist_never_trashed
    (home : String) (fs : String → Bool) (p : String) (force : Bool)
    (hp : p ∈ forbidden_exact home) :
    secure_delete home fs (some p) force ≠ DeleteOutcome.trashed := by
  intro hEq
  have hsafe : is_safe_to_delete_candidate home p = false := by
    simp [is_safe_to_delete_candidate, hp]
  simp only [secure_delete, hsafe] at hEq
  split_ifs at hEq
  all_goals simp_all

theorem secure_delete_denylist_never_trashed_witness :
    ("/Applications" ∈ forbidden_exact "/Users/u") ∧
      secure_delete "/Users/u" (fun _ => true) (some "/Applications") true ≠
        DeleteOutcome.trashed :=
  ⟨by decide,
   secure_delete_denylist_never_trashed "/Users/u" (fun _ => true)
     "/Applications" true (by decide)⟩

/-- C4 (counterexample): for a path under `/var/db/receipts` that does not
exist on the filesystem, `secure_delete(p, force_pkgs=False)` returns at
the very first guard: nothing is mutated, but no `SafetyBlocked` entry is
logged either, contradicting the claim that every receipt-root path gets a
`SafetyBlocked` log entry. -/
theorem secure_delete_receipts_missing_no_log :
    underReceiptsRoot "/var/db/receipts/com.x.pkg.bom" = true ∧
      secure_delete "/Users/u" (fun _ => false)
        (some "/var/db/receipts/com.x.pkg.bom") false = DeleteOutcome.noop ∧
      logsSafetyBlocked
        (secure_delete "/Users/u" (fun _ => false)
          (some "/var/db/receipts/com.x.pkg.bom") false) = false := by
  decide

/-- C4 (amended): for every path lying under a package-receipt storage
root that exists on the filesystem, `secure_delete` with the default
`force_pkgs = False` blocks unconditionally: no filesystem mutation, a
`SafetyBlocked` log entry (a policy decision, not an error); and whatever
the filesystem says, such a path is never trash-moved with the override
off. -/
theorem secure_delete_receipts_policy
    (home : String) (fs : String → Bool) (p : String)
    (hroot : underReceiptsRoot p = true) :
    secure_delete home fs (some p) false ≠ DeleteOutcome.trashed ∧
      (fs p = true →
        secure_delete home fs (some p) false = DeleteOutcome.blockedPkg ∧
        mutatesFilesystem (secure_delete home fs (some p) false) = false ∧
        logsSafetyBlocked (secure_delete home fs (some p) false) = true) := by
  have hp : (p == "") = false := by
    rcases Bool.eq_false_or_eq_true (p == "") with h | h
    · exfalso
      have : p = "" := by simpa using h
      rw [this] at hroot
      exact absurd hroot (by decide)
    · exact h
  have hsub : (strContains p "/var/db/receipts"
      || strContains p "/Library/Receipts") = true := by
    simp only [underReceiptsRoot, Bool.or_eq_true, decide_eq_true_eq] at hroot
    rcases hroot with h | h
    · simp [strContains_of_pref h]
    · simp [strContains_of_pref h]
  constructor
  · intro hEq
    simp only [secure_delete, hp, hsub] at hEq
    split_ifs at hEq
    all_goals simp_all
  · intro hfs
    have : secure_delete home fs (some p) false = DeleteOutcome.blockedPkg := by
      simp [secure_delete, hp, hfs, hsub]
    exact ⟨this, by rw [this]; rfl, by rw [this]; rfl⟩

theorem secure_delete_receipts_policy_witness :
    underReceiptsRoot "/Library/Receipts/com.x.pkg" = true ∧
      secure_delete "/Users/u" (fun _ => true)
        (some "/Library/Receipts/com.x.pkg") false = DeleteOutcome.blockedPkg :=
  ⟨by decide,
   ((secure_delete_receipts_policy "/Users/u" (fun _ => true)
      "/Library/Receipts/com.x.pkg" (by decide)).2 rfl).1⟩

/-! ## Process lifecycle (`is_app_running`, `kill_app`) -/

/-- The live process table, as the two collaborators see it:
`guiProcs` are the process names reported by the System Events AppleScript
query, `unixProcs` the names `pgrep -x` / `pkill -x` match against. -/
structure ProcEnv where
  guiProcs : List String
  unixProcs : List String
deriving DecidableEq, Repr

/-- The cleaned name `app_name.replace(".app", "")`, computed before each process query. -/
def cleanAppName (s : String) : String := pyRemoveAll s ".app"

/-- Embedding of `is_app_running` (source lines 644-667): exact-name membership in the
AppleScript process-name list, then exact-name `pgrep -x`; both guarded by
the truthiness of `app_name`, and the `bundle_id` argument is never
consulted. -/
def is_app_running (procs : ProcEnv) (bundle_id app_name : Option String) : Bool :=
  if truthy app_name
      && procs.guiProcs.contains (cleanAppName (app_name.getD "")) then true
  else if truthy app_name
      && procs.unixProcs.contains (cleanAppName (app_name.getD "")) then true
  else false

/-- The observable actions of one `kill_app` run, in order. -/
inductive PEvent where
  | gracefulQuit (bundleId : String) (timeoutSec : Nat)
  | waited (tenthsOfSecond : Nat)
  | recheck (stillRunning : Bool)
  | forceKill (name : String)
deriving DecidableEq, Repr

/-- Model of `pkill -x name`: terminates exactly the processes whose name equals
`name`. -/
def pkill_x (name : String) (e : ProcEnv) : ProcEnv :=
  ⟨e.guiProcs.filter (fun p => p != name),
   e.unixProcs.filter (fun p => p != name)⟩

/-- Environment for one `kill_app` run: the initial process table and the
response of the target application to the AppleScript quit request (the
application may or may not actually terminate its processes). -/
structure KillEnv where
  procs0 : ProcEnv
  quitEffect : String → ProcEnv → ProcEnv

/-- Embedding of `kill_app` (source lines 669-703): graceful AppleScript quit by bundle
id with a 3-second timeout (only when a truthy id is given), a 1-second
wait, an `is_app_running` re-check with early success, then `pkill -x` on
the exact cleaned name (only when a truthy name is given) and a final
re-check.  Returns the result, the event trace, and the final process
table. -/
def kill_app (env : KillEnv) (bundle_id app_name : Option String) :
    Bool × List PEvent × ProcEnv :=
  let e1 := if truthy bundle_id then env.quitEffect (bundle_id.getD "") env.procs0
            else env.procs0
  let pre : List PEvent :=
    (if truthy bundle_id then [.gracefulQuit (bundle_id.getD "") 3] else [])
      ++ [.waited 10]
  if !(is_app_running e1 bundle_id app_name) then
    (true, pre ++ [.recheck false], e1)
  else if truthy app_name then
    let clean := cleanAppName (app_name.getD "")
    let e2 := pkill_x clean e1
    (!(is_app_running e2 bundle_id app_name),
     pre ++ [.recheck true, .forceKill clean, .waited 5,
             .recheck (is_app_running e2 bundle_id app_name)], e2)
  else
    (!(is_app_running e1 bundle_id app_name),
     pre ++ [.recheck true, .recheck (is_app_running e1 bundle_id app_name)], e1)

/-- Scan of a `kill_app` trace checking the escalation order: a forced
termination may appear only after a graceful-quit attempt (when `needQuit`
demands one), after some wait, and after a post-wait re-check that
reported the process still running. -/
def escalationOKAux (needQuit seenQ seenW seenR : Bool) : List PEvent → Bool
  | [] => true
  | e :: rest =>
    match e with
    | .forceKill _ =>
      (!needQuit || seenQ) && seenW && seenR
        && escalationOKAux needQuit seenQ seenW seenR rest
    | .gracefulQuit _ _ => escalationOKAux needQuit true seenW seenR rest
    | .waited _ => escalationOKAux needQuit seenQ true seenR rest
    | .recheck r => escalationOKAux needQuit seenQ seenW (seenR || (seenW && r)) rest

/-- Escalation-order check over a full trace. -/
def escalationOK (needQuit : Bool) (tr : List PEvent) : Bool :=
  escalationOKAux needQuit false false false tr

/-- C10: `is_app_running` never consults the identifier — any two
identifier values give the same answer — and a `None` or empty name
yields `false` no matter the identifier. -/
theorem is_app_running_ignores_bundle_id
    (procs : ProcEnv) (id1 id2 name : Option String) :
    is_app_running procs id1 name = is_app_running procs id2 name ∧
      ((name = none ∨ name = some "") → is_app_running procs id1 name = false) := by
  constructor
  · rfl
  · rintro (h | h) <;> subst h <;> rfl

theorem is_app_running_ignores_bundle_id_witness :
    is_app_running ⟨["Foo"], ["Foo"]⟩ (some "b") none = false :=
  (is_app_running_ignores_bundle_id ⟨["Foo"], ["Foo"]⟩ (some "b") none none).2
    (Or.inl rfl)

/-- C8: the process queries match only on the exact cleaned name.  A
process whose name strictly contains the queried name as a proper
substring is never matched by `is_app_running` (a table holding only that
process reports not-running; any positive answer exhibits exact-name
membership) and is never terminated by `kill_app`'s `pkill -x` stage
(membership in the final process table is preserved, given that the
graceful-quit request to the target application does not touch it). -/
theorem process_match_exact_only
    (id name : Option String) (helper : String)
    (hsub : (cleanAppName (name.getD "")).toList <:+: helper.toList)
    (hne : helper ≠ cleanAppName (name.getD "")) :
    is_app_running ⟨[helper], [helper]⟩ id name = false ∧
      (∀ procs : ProcEnv, is_app_running procs id name = true →
        cleanAppName (name.getD "") ∈ procs.guiProcs ∨
          cleanAppName (name.getD "") ∈ procs.unixProcs) ∧
      (∀ env : KillEnv,
        (∀ bid e, helper ∈ e.guiProcs → helper ∈ (env.quitEffect bid e).guiProcs) →
        (∀ bid e, helper ∈ e.unixProcs → helper ∈ (env.quitEffect bid e).unixProcs) →
        (helper ∈ env.procs0.guiProcs →
          helper ∈ (kill_app env id name).2.2.guiProcs) ∧
        (helper ∈ env.procs0.unixProcs →
          helper ∈ (kill_app env id name).2.2.unixProcs)) := by
  refine ⟨?_, ?_, ?_⟩
  · simp [is_app_running, Ne.symm hne]
  · intro procs h
    simp only [is_app_running] at h
    split_ifs at h with h1 h2
    · have h1' : truthy name = true ∧
          cleanAppName (name.getD "") ∈ procs.guiProcs := by simpa using h1
      exact Or.inl h1'.2
    · have h2' : truthy name = true ∧
          cleanAppName (name.getD "") ∈ procs.unixProcs := by simpa using h2
      exact Or.inr h2'.2
  · intro env hG hU
    have hstep : ∀ l : List String, helper ∈ l →
        helper ∈ l.filter (fun p => p != cleanAppName (name.getD "")) :=
      fun l hl => List.mem_filter.mpr ⟨hl, by simpa using hne⟩
    have hfin : (kill_app env id name).2.2 =
          (if truthy id then env.quitEffect (id.getD "") env.procs0
           else env.procs0) ∨
        (kill_app env id name).2.2 =
          pkill_x (cleanAppName (name.getD ""))
            (if truthy id then env.quitEffect (id.getD "") env.procs0
             else env.procs0) := by
      simp only [kill_app]
      split_ifs <;> simp
    constructor
    · intro h0
      have h1 : helper ∈ (if truthy id then
          env.quitEffect (id.getD "") env.procs0 else env.procs0).guiProcs := by
        split
        · exact hG _ _ h0
        · exact h0
      rcases hfin with hf | hf <;> rw [hf]
      · exact h1
      · exact hstep _ h1
    · intro h0
      have h1 : helper ∈ (if truthy id then
          env.quitEffect (id.getD "") env.procs0 else env.procs0).unixProcs := by
        split
        · exact hU _ _ h0
        · exact h0
      rcases hfin with hf | hf <;> rw [hf]
      · exact h1
      · exact hstep _ h1

/-- Concrete environment for the C8 witness: only the look-alike helper
process is alive, and the graceful-quit request changes nothing. -/
def killEnvHelperOnly : KillEnv :=
  ⟨⟨["MyAppHelper"], ["MyAppHelper"]⟩, fun _ e => e⟩

theorem process_match_exact_only_witness :
    is_app_running ⟨["MyAppHelper"], ["MyAppHelper"]⟩ (some "b") (some "MyApp")
        = false ∧
      "MyAppHelper" ∈
        (kill_app killEnvHelperOnly (some "b") (some "MyApp")).2.2.unixProcs :=
  ⟨(process_match_exact_only (some "b") (some "MyApp") "MyAppHelper"
      (by decide) (by decide)).1,
   ((process_match_exact_only (some "b") (some "MyApp") "MyAppHelper"
      (by decide) (by decide)).2.2 killEnvHelperOnly
      (fun _ _ h => h) (fun _ _ h => h)).2 (by decide)⟩

/-- Concrete environment for the C2 counterexample: the app process `Foo`
is alive and no bundle identifier is available. -/
def killEnvNoId : KillEnv := ⟨⟨["Foo"], ["Foo"]⟩, fun _ e => e⟩

/-- C2 (counterexample): with no identifier available (`bundle_id` is
`None`, a normal case for unsigned bundles) and the process still alive at
the post-wait check, `kill_app` issues the exact-name forced termination
without ever making a graceful-quit attempt, so the claimed unconditional
escalation order fails. -/
theorem kill_app_forced_without_graceful :
    ((kill_app killEnvNoId none (some "Foo")).2.1.any
        (fun e => match e with | .forceKill _ => true | _ => false) = true) ∧
      ((kill_app killEnvNoId none (some "Foo")).2.1.all
        (fun e => match e with | .gracefulQuit _ _ => false | _ => true) = true) ∧
      escalationOK true (kill_app killEnvNoId none (some "Foo")).2.1 = false := by
  decide

/-- C2 (amended): whenever a truthy identifier is provided, `kill_app`
makes the graceful-quit attempt (by that identifier, with the bounded
timeout) and, with or without an identifier, a forced termination can only
follow a wait and a post-wait re-check that reported the process still
running; the returned Boolean is the negation of the final re-check. -/
theorem kill_app_escalation_order (env : KillEnv) (id name : Option String) :
    escalationOK (truthy id) (kill_app env id name).2.1 = true ∧
      (truthy id = true →
        PEvent.gracefulQuit (id.getD "") 3 ∈ (kill_app env id name).2.1) ∧
      (∃ r, (kill_app env id name).2.1.getLast? = some (PEvent.recheck r) ∧
        (kill_app env id name).1 = !r) := by
  cases hid : truthy id <;>
    simp only [kill_app, hid, if_true, if_false, Bool.false_eq_true,
      Bool.true_eq_false, ite_true, ite_false] <;>
  · cases hr : is_app_running
        (if truthy id then env.quitEffect (id.getD "") env.procs0
         else env.procs0) id name <;>
      simp only [hid, ite_true, ite_false, Bool.false_eq_true, Bool.true_eq_false] at hr ⊢ <;>
      simp [hr, escalationOK, escalationOKAux] <;>
      cases hn : truthy name <;>
      simp [hn, escalationOK, escalationOKAux]

theorem kill_app_escalation_order_witness :
    escalationOK (truthy (some "b"))
        (kill_app killEnvNoId (some "b") (some "Foo")).2.1 = true ∧
      PEvent.gracefulQuit "b" 3 ∈
        (kill_app killEnvNoId (some "b") (some "Foo")).2.1 :=
  ⟨(kill_app_escalation_order killEnvNoId (some "b") (some "Foo")).1,
   (kill_app_escalation_order killEnvNoId (some "b") (some "Foo")).2.1 rfl⟩

/-! ## Multi-source discovery (`find_leftovers` and its sources) -/

/-- The filesystem and external collaborators one discovery call consults:
the stripped lines of the scoped `mdfind` query, `os.path.exists`,
`os.path.isdir`, `os.listdir`, the identifiers printed by
`pkgutil --pkgs`, and the recursive `_get_size` of a path. -/
structure FsEnv where
  mdfindResults : List String
  pathExists : String → Bool
  isDir : String → Bool
  listDir : String → List String
  pkgutilPkgs : List String
  entrySize : String → Nat

/-- One leftover candidate: `{'path': p, 'kind': k}`. -/
structure Candidate where
  path : String
  kind : String
deriving DecidableEq, Repr

/-- The closure `add_item` inside `find_leftovers` (source lines 118-121):
the state is the pair (`found_paths` as an insertion-ordered list,
`results`); a raw nomination is admitted when the path is truthy, not yet
seen, not the install path, and not string-prefixed by the install path. -/
def add_item (app_path : String) (st : List String × List Candidate)
    (it : String × String) : List String × List Candidate :=
  if it.1 != "" && !st.1.contains it.1 && it.1 != app_path
      && !pyStarts it.1 app_path then
    (st.1 ++ [it.1], st.2 ++ [⟨it.1, it.2⟩])
  else st

/-- The fixed per-identifier probe locations (source lines 139-148). -/
def manual_checks (home id : String) : List String :=
  [home ++ "/Library/Caches/" ++ id,
   home ++ "/Library/Preferences/" ++ id ++ ".plist",
   home ++ "/Library/Saved Application State/" ++ id ++ ".savedState",
   home ++ "/Library/Application Support/" ++ id,
   home ++ "/Library/Containers/" ++ id,
   home ++ "/Library/HTTPStorages/" ++ id,
   home ++ "/Library/Cookies/" ++ id ++ ".binarycookies",
   home ++ "/Library/WebKit/" ++ id]

/-- The display-name re-probes (source lines 156-160). -/
def smart_checks (home nm : String) : List String :=
  [home ++ "/Library/Application Support/" ++ nm,
   home ++ "/Library/Caches/" ++ nm,
   home ++ "/Library/Saved Application State/" ++ nm ++ ".savedState"]

/-- Embedding of `find_pkg_receipts` (source lines 707-734): every installed package
identifier containing the bundle id as a substring is mapped to its
existing `.bom`, `.plist` and legacy `.pkg` receipt files. -/
def find_pkg_receipts (env : FsEnv) (bundle_id : String) : List String :=
  (env.pkgutilPkgs.filter (fun pkg => strContains pkg bundle_id)).flatMap
    (fun pkg_id =>
      (if env.pathExists ("/var/db/receipts/" ++ pkg_id ++ ".bom")
       then ["/var/db/receipts/" ++ pkg_id ++ ".bom"] else [])
      ++ (if env.pathExists ("/var/db/receipts/" ++ pkg_id ++ ".plist")
          then ["/var/db/receipts/" ++ pkg_id ++ ".plist"] else [])
      ++ (if env.pathExists ("/Library/Receipts/" ++ pkg_id ++ ".pkg")
          then ["/Library/Receipts/" ++ pkg_id ++ ".pkg"] else []))

/-- Embedding of `find_privileged_helpers` (source lines 736-749). -/
def find_privileged_helpers (env : FsEnv)
    (bundle_id bundle_name : Option String) : List String :=
  if !env.pathExists "/Library/PrivilegedHelperTools" then []
  else
    (env.listDir "/Library/PrivilegedHelperTools").filterMap (fun entry =>
      if (truthy bundle_id && strContains entry (bundle_id.getD ""))
          || (truthy bundle_name
              && strContains (pyLower entry) (pyLower (bundle_name.getD "")))
      then some (pjoin "/Library/PrivilegedHelperTools" entry)
      else none)

/-- The fixed plugin directories (source lines 754-765). -/
def plugin_dirs (home : String) : List String :=
  ["/Library/Audio/Plug-Ins/Components",
   "/Library/Audio/Plug-Ins/VST",
   "/Library/Audio/Plug-Ins/VST3",
   "/Library/Internet Plug-Ins",
   "/Library/PreferencePanes",
   home ++ "/Library/Audio/Plug-Ins/Components",
   home ++ "/Library/Audio/Plug-Ins/VST",
   home ++ "/Library/Audio/Plug-Ins/VST3",
   home ++ "/Library/Internet Plug-Ins",
   home ++ "/Library/PreferencePanes"]

/-- Embedding of `find_plugins` (source lines 751-775). -/
def find_plugins (home : String) (env : FsEnv) (bundle_name : String) :
    List String :=
  (plugin_dirs home).flatMap (fun d =>
    if !env.pathExists d then []
    else
      (env.listDir d).filterMap (fun entry =>
        if strContains (pyLower entry) (pyLower bundle_name)
        then some (pjoin d entry) else none))

/-- Embedding of `find_hidden_folders` (source lines 197-215). -/
def find_hidden_folders (home : String) (env : FsEnv) (bundle_name : String) :
    List String :=
  let path := pjoin home ("." ++ pyRemoveAll (pyLower bundle_name) " ")
  let path2 := pjoin home ("." ++ bundle_name)
  (if env.isDir path then [path] else [])
    ++ (if env.isDir path2 && path2 != path then [path2] else [])

/-- Embedding of `find_user_documents` (source lines 217-235). -/
def find_user_documents (home : String) (env : FsEnv) (bundle_name : String) :
    List String :=
  [home ++ "/Documents", home ++ "/Movies",
   home ++ "/Music", home ++ "/Pictures"].flatMap (fun d =>
    if !env.pathExists d then []
    else if env.isDir (pjoin d bundle_name) then [pjoin d bundle_name] else [])

/-- The raw nomination stream of one `find_leftovers` call (source lines
123-192), in source order: Spotlight hits and probe hits filtered through
the admission filter, then package receipts, privileged helpers, plugins
and user data, each with the kind its source assigns.  No source inspects
the accumulator, so the sequential blocks of the source are exactly a fold
of `add_item` over this stream. -/
def nominations (home : String) (env : FsEnv)
    (bundle_id bundle_name : Option String) : List (String × String) :=
  (if truthy bundle_id then
    (env.mdfindResults.filter (fun p => is_safe_to_delete_candidate home p)).map
      (fun p => (p, "FILE"))
   else []) ++
  (if truthy bundle_id then
    ((manual_checks home (bundle_id.getD "")).filter
      (fun p => env.pathExists p && is_safe_to_delete_candidate home p)).map
      (fun p => (p, "FILE"))
   else []) ++
  (if truthy bundle_name && bundle_name != bundle_id then
    ((smart_checks home (bundle_name.getD "")).filter
      (fun p => env.pathExists p && is_safe_to_delete_candidate home p)).map
      (fun p => (p, "FILE"))
   else []) ++
  (if truthy bundle_id then
    (find_pkg_receipts env (bundle_id.getD "")).map (fun p => (p, "PKG_RECEIPT"))
   else []) ++
  (if truthy bundle_id && truthy bundle_name then
    (find_privileged_helpers env bundle_id bundle_name).map
      (fun p => (p, "HELPER"))
   else []) ++
  (if truthy bundle_name then
    (find_plugins home env (bundle_name.getD "")).map (fun p => (p, "PLUGIN"))
   else []) ++
  (if truthy bundle_name then
    ((find_hidden_folders home env (bundle_name.getD ""))
      ++ (find_user_documents home env (bundle_name.getD ""))).map
      (fun p => (p, "USER_DATA"))
   else [])

/-- Code-point lexicographic comparison of character lists — the order
Python uses to compare strings. -/
def charListLt : List Char → List Char → Bool
  | [], [] => false
  | [], _ :: _ => true
  | _ :: _, [] => false
  | a :: as, b :: bs =>
    if a.toNat < b.toNat then true
    else if b.toNat < a.toNat then false
    else charListLt as bs

/-- Python `a < b` on strings. -/
def strLt (a b : String) : Bool := charListLt a.toList b.toList

/-- Python's ascending order on the pairs `(kind, path)` used as the sort
key of `find_leftovers`. -/
def candLE (a b : Candidate) : Bool :=
  strLt a.kind b.kind
    || (a.kind == b.kind && (strLt a.path b.path || a.path == b.path))

/-- Embedding of `find_leftovers` (source lines 107-195): fold the nomination stream
through `add_item` starting from the empty state, then sort the results by
`(kind, path)` ascending — a stable insertion sort, which agrees with
Python's stable `sorted` on every input. -/
def find_leftovers (home : String) (env : FsEnv)
    (bundle_id bundle_name : Option String) (app_path : String) :
    List Candidate :=
  List.insertionSort (fun a b => candLE a b = true)
    (((nominations home env bundle_id bundle_name).foldl (add_item app_path)
      ([], [])).2)

/-! ### Order facts for the `(kind, path)` sort key -/

theorem charListLt_trans : ∀ (a b c : List Char),
    charListLt a b = true → charListLt b c = true → charListLt a c = true
  | [], [], _, hab, _ => by cases hab
  | _ :: _, [], _, hab, _ => by cases hab
  | [], _ :: _, [], _, hbc => by cases hbc
  | _ :: _, _ :: _, [], _, hbc => by cases hbc
  | [], _ :: _, _ :: _, _, _ => rfl
  | a :: as, b :: bs, c :: cs, hab, hbc => by
    simp only [charListLt] at hab hbc ⊢
    by_cases h1 : a.toNat < b.toNat
    · by_cases h2 : b.toNat < c.toNat
      · rw [if_pos (show a.toNat < c.toNat by omega)]
      · rw [if_neg h2] at hbc
        by_cases h3 : c.toNat < b.toNat
        · rw [if_pos h3] at hbc; cases hbc
        · rw [if_pos (show a.toNat < c.toNat by omega)]
    · rw [if_neg h1] at hab
      by_cases h3 : b.toNat < a.toNat
      · rw [if_pos h3] at hab; cases hab
      · rw [if_neg h3] at hab
        by_cases h2 : b.toNat < c.toNat
        · rw [if_pos (show a.toNat < c.toNat by omega)]
        · rw [if_neg h2] at hbc
          by_cases h4 : c.toNat < b.toNat
          · rw [if_pos h4] at hbc; cases hbc
          · rw [if_neg h4] at hbc
            rw [if_neg (show ¬ a.toNat < c.toNat by omega),
              if_neg (show ¬ c.toNat < a.toNat by omega)]
            exact charListLt_trans as bs cs hab hbc

theorem charListLt_conn : ∀ (a b : List Char),
    charListLt a b = false → charListLt b a = false → a = b
  | [], [], _, _ => rfl
  | [], _ :: _, hab, _ => by cases hab
  | _ :: _, [], _, hba => by cases hba
  | a :: as, b :: bs, hab, hba => by
    simp only [charListLt] at hab hba
    by_cases h1 : a.toNat < b.toNat
    · simp [h1] at hab
    · by_cases h2 : b.toNat < a.toNat
      · simp [h2] at hba
      · have hn : a.toNat = b.toNat :=
          Nat.le_antisymm (Nat.not_lt.mp h2) (Nat.not_lt.mp h1)
        have hc : a = b := Char.ext (UInt32.ext hn)
        have htail : as = bs :=
          charListLt_conn as bs (by simpa [h1, h2] using hab)
            (by simpa [h2, h1] using hba)
        rw [hc, htail]

theorem strLt_trans {a b c : String} (hab : strLt a b = true)
    (hbc : strLt b c = true) : strLt a c = true :=
  charListLt_trans a.toList b.toList c.toList hab hbc

theorem strLt_conn {a b : String} (hab : strLt a b = false)
    (hba : strLt b a = false) : a = b := by
  have h := charListLt_conn a.toList b.toList hab hba
  cases a with
  | mk da =>
    cases b with
    | mk db => exact congrArg String.mk (by simpa [String.toList] using h)

theorem candLE_trans (a b c : Candidate) (hab : candLE a b = true)
    (hbc : candLE b c = true) : candLE a c = true := by
  simp only [candLE, Bool.or_eq_true, Bool.and_eq_true, beq_iff_eq] at hab hbc ⊢
  rcases hab with h1 | ⟨hk1, h1⟩
  · rcases hbc with h2 | ⟨hk2, h2⟩
    · exact Or.inl (strLt_trans h1 h2)
    · exact Or.inl (hk2 ▸ h1)
  · rcases hbc with h2 | ⟨hk2, h2⟩
    · exact Or.inl (hk1 ▸ h2)
    · refine Or.inr ⟨hk1.trans hk2, ?_⟩
      rcases h1 with h1 | h1
      · rcases h2 with h2 | h2
        · exact Or.inl (strLt_trans h1 h2)
        · exact Or.inl (h2 ▸ h1)
      · rcases h2 with h2 | h2
        · exact Or.inl (h1 ▸ h2)
        · exact Or.inr (h1.trans h2)

theorem candLE_total (a b : Candidate) :
    candLE a b = true ∨ candLE b a = true := by
  by_cases hk : strLt a.kind b.kind = true
  · exact Or.inl (by simp [candLE, hk])
  · by_cases hk' : strLt b.kind a.kind = true
    · exact Or.inr (by simp [candLE, hk'])
    · have hke : a.kind = b.kind :=
        strLt_conn (Bool.eq_false_iff.mpr hk) (Bool.eq_false_iff.mpr hk')
      by_cases hp : strLt a.path b.path = true
      · exact Or.inl (by simp [candLE, hke, hp])
      · by_cases hp' : strLt b.path a.path = true
        · exact Or.inr (by simp [candLE, hke, hp'])
        · have hpe : a.path = b.path :=
            strLt_conn (Bool.eq_false_iff.mpr hp) (Bool.eq_false_iff.mpr hp')
          exact Or.inl (by simp [candLE, hke, hpe])

/-! ### Invariants of the `add_item` fold -/

/-- The state-independent part of the `add_item` admission guard: truthy
path, not the install path, not string-prefixed by the install path. -/
def admissible (app_path p : String) : Bool :=
  p != "" && p != app_path && !pyStarts p app_path

/-- Invariant of the fold state: the seen-set lists exactly the admitted
paths in order, paths are unique, and every admitted candidate passed the
static guard. -/
def StInv (app_path : String) (st : List String × List Candidate) : Prop :=
  st.1 = st.2.map Candidate.path ∧ st.1.Nodup ∧
    ∀ c ∈ st.2, admissible app_path c.path = true

theorem add_item_guard (ap : String) (found : List String)
    (it : String × String) :
    (it.1 != "" && !found.contains it.1 && it.1 != ap
        && !pyStarts it.1 ap) = true ↔
      it.1 ∉ found ∧ admissible ap it.1 = true := by
  rw [Bool.and_eq_true, Bool.and_eq_true, Bool.and_eq_true]
  constructor
  · rintro ⟨⟨⟨h1, h2⟩, h3⟩, h4⟩
    constructor
    · intro hm
      rw [Bool.not_eq_true'] at h2
      simp [List.elem_iff] at h2
      exact h2 hm
    · rw [admissible, Bool.and_eq_true, Bool.and_eq_true]
      exact ⟨⟨h1, h3⟩, h4⟩
  · rintro ⟨hnm, hadm⟩
    rw [admissible, Bool.and_eq_true, Bool.and_eq_true] at hadm
    refine ⟨⟨⟨hadm.1.1, ?_⟩, hadm.1.2⟩, hadm.2⟩
    rw [Bool.not_eq_true']
    simp [List.elem_iff]
    exact hnm

theorem add_item_pos (ap : String) (st : List String × List Candidate)
    (it : String × String) (h : it.1 ∉ st.1 ∧ admissible ap it.1 = true) :
    add_item ap st it = (st.1 ++ [it.1], st.2 ++ [⟨it.1, it.2⟩]) := by
  rw [add_item, if_pos ((add_item_guard ap st.1 it).mpr h)]

theorem add_item_neg (ap : String) (st : List String × List Candidate)
    (it : String × String) (h : ¬(it.1 ∉ st.1 ∧ admissible ap it.1 = true)) :
    add_item ap st it = st := by
  rw [add_item, if_neg (fun hg => h ((add_item_guard ap st.1 it).mp hg))]

theorem add_item_inv (ap : String) (st : List String × List Candidate)
    (it : String × String) (h : StInv ap st) : StInv ap (add_item ap st it) := by
  by_cases hg : it.1 ∉ st.1 ∧ admissible ap it.1 = true
  · rw [add_item_pos ap st it hg]
    obtain ⟨h1, h2, h3⟩ := h
    refine ⟨by simp [h1], ?_, ?_⟩
    · simp [List.nodup_append, h2, hg.1]
    · intro c hc
      rcases List.mem_append.mp hc with hcc | hcc
      · exact h3 c hcc
      · have hce : c = ⟨it.1, it.2⟩ := by simpa using hcc
        rw [hce]
        exact hg.2
  · rw [add_item_neg ap st it hg]
    exact h

theorem foldl_add_item_inv (ap : String) :
    ∀ (noms : List (String × String)) (st : List String × List Candidate),
      StInv ap st → StInv ap (noms.foldl (add_item ap) st)
  | [], _, h => h
  | it :: rest, st, h =>
    foldl_add_item_inv ap rest (add_item ap st it) (add_item_inv ap st it h)

/-- First-writer-wins: a candidate in the fold result either was already
in the initial state, or its kind is the kind of the first nomination of
its path in the stream. -/
theorem foldl_add_item_first (ap : String) :
    ∀ (noms : List (String × String)) (st : List String × List Candidate),
      StInv ap st → ∀ p k,
        (⟨p, k⟩ : Candidate) ∈ (noms.foldl (add_item ap) st).2 →
        (⟨p, k⟩ : Candidate) ∈ st.2 ∨
          (p ∉ st.1 ∧ noms.find? (fun x => x.1 == p) = some (p, k))
  | [], _, _, _, _, hmem => Or.inl hmem
  | it :: rest, st, hinv, p, k, hmem => by
    have hadm : admissible ap p = true :=
      (foldl_add_item_inv ap (it :: rest) st hinv).2.2 ⟨p, k⟩ hmem
    have hinv' := add_item_inv ap st it hinv
    rcases foldl_add_item_first ap rest (add_item ap st it) hinv' p k hmem
      with hin | ⟨hnot, hfind⟩
    · by_cases hg : it.1 ∉ st.1 ∧ admissible ap it.1 = true
      · rw [add_item_pos ap st it hg] at hin
        rcases List.mem_append.mp hin with hcc | hcc
        · exact Or.inl hcc
        · have hce : (⟨p, k⟩ : Candidate) = ⟨it.1, it.2⟩ := by simpa using hcc
          have hp : p = it.1 := congrArg Candidate.path hce
          have hk : k = it.2 := congrArg Candidate.kind hce
          right
          refine ⟨hp ▸ hg.1, ?_⟩
          have hbeq : (it.1 == p) = true := by simp [hp]
          have hit : it = (p, k) := by
            cases it
            simp_all
          simp [List.find?_cons, hbeq, hit]
      · rw [add_item_neg ap st it hg] at hin
        exact Or.inl hin
    · have hsub : p ∉ st.1 := by
        intro hc
        apply hnot
        by_cases hg : it.1 ∉ st.1 ∧ admissible ap it.1 = true
        · rw [add_item_pos ap st it hg]
          exact List.mem_append.mpr (Or.inl hc)
        · rw [add_item_neg ap st it hg]
          exact hc
      right
      refine ⟨hsub, ?_⟩
      by_cases hip : (it.1 == p) = true
      · exfalso
        have hip' : it.1 = p := by simpa using hip
        apply hnot
        have hg : it.1 ∉ st.1 ∧ admissible ap it.1 = true := by
          rw [hip']
          exact ⟨hsub, hadm⟩
        rw [add_item_pos ap st it hg]
        exact List.mem_append.mpr (Or.inr (by simp [hip']))
      · simp only [List.find?_cons, hip]
        exact hfind

/-- Discovery environment for the C3 counterexample and several
witnesses: the content-index query returns the single path `/x` and
nothing exists anywhere else. -/
def envMdfindX : FsEnv :=
  ⟨["/x"], fun _ => false, fun _ => false, fun _ => [], [], fun _ => 0⟩

/-- C3 (counterexample): `add_item` checks only that a candidate is not
equal to and does not extend the install path; nothing rules out the
install path being nested inside a candidate.  With the install path
`/x/y.app` and a content-index hit `/x`, `find_leftovers` returns `/x`
although the install path lies strictly inside it. -/
theorem find_leftovers_install_nested_in_candidate :
    (⟨"/x", "FILE"⟩ : Candidate) ∈
        find_leftovers "/Users/u" envMdfindX (some "com.x.y") none "/x/y.app" ∧
      pyStarts "/x/y.app" ("/x" ++ "/") = true := by
  decide

/-- C3 (amended): every candidate returned by one `find_leftovers` call
differs from the install path and is not string-prefixed by it (hence is
never equal to it nor nested inside it); the reverse nesting direction is
not checked by the code. -/
theorem find_leftovers_no_self_destruction
    (home : String) (env : FsEnv) (id nm : Option String) (ap : String)
    (c : Candidate) (hc : c ∈ find_leftovers home env id nm ap) :
    c.path ≠ ap ∧ pyStarts c.path ap = false := by
  have hmem : c ∈ ((nominations home env id nm).foldl (add_item ap) ([], [])).2 :=
    (List.perm_insertionSort (fun a b => candLE a b = true) _).subset hc
  have hinv := foldl_add_item_inv ap (nominations home env id nm) ([], [])
    ⟨rfl, List.nodup_nil, by simp⟩
  have hadm := hinv.2.2 c hmem
  rw [admissible, Bool.and_eq_true, Bool.and_eq_true] at hadm
  refine ⟨by simpa using hadm.1.2, ?_⟩
  rw [← Bool.not_eq_true']
  exact hadm.2

theorem find_leftovers_no_self_destruction_witness :
    (⟨"/x", "FILE"⟩ : Candidate) ∈
        find_leftovers "/Users/u" envMdfindX (some "com.x.y") none "/apps/Foo.app" ∧
      ("/x" : String) ≠ "/apps/Foo.app" ∧ pyStarts "/x" "/apps/Foo.app" = false :=
  ⟨by decide,
   find_leftovers_no_self_destruction "/Users/u" envMdfindX (some "com.x.y")
     none "/apps/Foo.app" ⟨"/x", "FILE"⟩ (by decide)⟩

/-- C6: within one `find_leftovers` call the returned paths are unique;
when several sources nominate the same path the first writer's kind is
kept (the returned kind is the kind of the first nomination of that path
in the source-ordered stream); and the output is sorted ascending by the
pair `(kind, path)`. -/
theorem find_leftovers_unique_first_writer_sorted
    (home : String) (env : FsEnv) (id nm : Option String) (ap : String) :
    ((find_leftovers home env id nm ap).map Candidate.path).Nodup ∧
      (∀ p k, (⟨p, k⟩ : Candidate) ∈ find_leftovers home env id nm ap →
        (nominations home env id nm).find? (fun x => x.1 == p) = some (p, k)) ∧
      (find_leftovers home env id nm ap).Pairwise
        (fun a b => candLE a b = true) := by
  have hinv := foldl_add_item_inv ap (nominations home env id nm) ([], [])
    ⟨rfl, List.nodup_nil, by simp⟩
  have hperm := List.perm_insertionSort (fun a b => candLE a b = true)
    (((nominations home env id nm).foldl (add_item ap) ([], [])).2)
  refine ⟨?_, ?_, ?_⟩
  · have hres : (((nominations home env id nm).foldl (add_item ap)
        ([], [])).2.map Candidate.path).Nodup := hinv.1 ▸ hinv.2.1
    exact (hperm.map Candidate.path).nodup_iff.mpr hres
  · intro p k hmem
    rcases foldl_add_item_first ap (nominations home env id nm) ([], [])
        ⟨rfl, List.nodup_nil, by simp⟩ p k (hperm.subset hmem) with h | h
    · cases h
    · exact h.2
  · haveI ht : IsTotal Candidate (fun a b => candLE a b = true) :=
      ⟨candLE_total⟩
    haveI htr : IsTrans Candidate (fun a b => candLE a b = true) :=
      ⟨fun a b c => candLE_trans a b c⟩
    exact List.sorted_insertionSort (fun a b => candLE a b = true) _

theorem find_leftovers_unique_first_writer_sorted_witness :
    (nominations "/Users/u" envMdfindX (some "com.x.y") none).find?
        (fun x => x.1 == "/x") = some ("/x", "FILE") :=
  (find_leftovers_unique_first_writer_sorted "/Users/u" envMdfindX
    (some "com.x.y") none "/apps/Foo.app").2.1 "/x" "FILE" (by decide)

/-! ## Reset mode (`reset_app`) -/

/-- Embedding of `find_group_containers` (source lines 324-337): entries of
`~/Library/Group Containers` containing the bundle id as a substring. -/
def find_group_containers (home : String) (env : FsEnv)
    (bundle_id : Option String) : List String :=
  if !env.pathExists (home ++ "/Library/Group Containers") then []
  else
    (env.listDir (home ++ "/Library/Group Containers")).filterMap (fun entry =>
      if truthy bundle_id && strContains entry (bundle_id.getD "")
      then some (pjoin (home ++ "/Library/Group Containers") entry)
      else none)

/-- Embedding of `reset_app` (source lines 273-314), reduced to its deletion decisions:
the discovered candidates (standard leftovers plus group containers) that
survive the reset-mode kind exclusions; each of these — and only these —
is passed to `secure_delete(path, force_pkgs=False)`. -/
def reset_app (home : String) (env : FsEnv)
    (bundle_id bundle_name : Option String) (app_path : String) :
    List Candidate :=
  (find_leftovers home env bundle_id bundle_name app_path
    ++ (if truthy bundle_id then
          (find_group_containers home env bundle_id).map
            (fun gc => (⟨gc, "GROUP_CONTAINER"⟩ : Candidate))
        else [])).filter
    (fun c => !(c.kind == "USER_DATA") && !(c.kind == "PKG_RECEIPT"))

/-- C5: a reset operation never passes a candidate of kind `USER_DATA` or
`PKG_RECEIPT` to deletion, whatever the toggles elsewhere in the
application say; since reset writes no audit entry at all, no audit entry
of a reset contains such a path either. -/
theorem reset_app_excludes_userdata_and_receipts
    (home : String) (env : FsEnv) (id nm : Option String) (ap : String)
    (c : Candidate) (hc : c ∈ reset_app home env id nm ap) :
    c.kind ≠ "USER_DATA" ∧ c.kind ≠ "PKG_RECEIPT" := by
  have hp := List.of_mem_filter hc
  rw [Bool.and_eq_true, Bool.not_eq_true', Bool.not_eq_true'] at hp
  constructor
  · intro h
    rw [h] at hp
    simp at hp
  · intro h
    rw [h] at hp
    simp at hp

theorem reset_app_excludes_userdata_and_receipts_witness :
    (⟨"/x", "FILE"⟩ : Candidate) ∈
        reset_app "/Users/u" envMdfindX (some "com.x.y") none "/apps/Foo.app" ∧
      ("FILE" : String) ≠ "USER_DATA" ∧ ("FILE" : String) ≠ "PKG_RECEIPT" :=
  ⟨by decide,
   reset_app_excludes_userdata_and_receipts "/Users/u" envMdfindX
     (some "com.x.y") none "/apps/Foo.app" ⟨"/x", "FILE"⟩ (by decide)⟩

/-! ## Orphan scanner (`scan_orphans`) -/

/-- One orphan record `{name, path, size, probable_id}`. -/
structure OrphanRecord where
  name : String
  path : String
  size : Nat
  probable_id : String
deriving DecidableEq, Repr

/-- The fixed data roots scanned for orphans (source lines 349-359). -/
def scan_dirs (home : String) : List String :=
  [home ++ "/Library/Containers",
   home ++ "/Library/Application Support",
   home ++ "/Library/Caches",
   home ++ "/Library/Preferences",
   "/Library/Audio/Plug-Ins/Components",
   "/Library/Audio/Plug-Ins/VST",
   "/Library/Audio/Plug-Ins/VST3",
   "/Library/Internet Plug-Ins",
   "/Library/PreferencePanes"]

/-- The per-entry filter of `scan_orphans` (source lines 377-380): the
name contains a dot and at least three dot-delimited parts, and its
cleaned form — every occurrence of `.plist` deleted — neither starts with
`com.apple.` nor is an installed identifier. -/
def orphanQualifies (installed : List String) (entry : String) : Bool :=
  strContains entry "." && decide ((splitSep '.' entry.toList).length ≥ 3)
    && !pyStarts (pyRemoveAll entry ".plist") "com.apple."
    && !installed.contains (pyRemoveAll entry ".plist")

/-- Embedding of `scan_orphans` (source lines 346-393): qualifying entries of the
existing data roots, sorted descending by size (Python's stable
`sorted(..., reverse=True)`, which the stable insertion sort under the
flipped order reproduces exactly). -/
def scan_orphans (home : String) (env : FsEnv) (installed : List String) :
    List OrphanRecord :=
  List.insertionSort (fun a b => b.size ≤ a.size)
    ((scan_dirs home).flatMap (fun d =>
      if !env.pathExists d then []
      else
        (env.listDir d).filterMap (fun entry =>
          if orphanQualifies installed entry then
            some ⟨entry, pjoin d entry, env.entrySize (pjoin d entry),
              pyRemoveAll entry ".plist"⟩
          else none)))

/-- The claim's reading of the orphan filter, written from the spec's
words: at least three dot-delimited segments, the *name* does not begin
with the vendor prefix, and the cleaned name — the `.plist` file
extension stripped from the end — is absent from the installed set. -/
def orphanSpecQualifies (installed : List String) (entry : String) : Bool :=
  decide ((splitSep '.' entry.toList).length ≥ 3)
    && !pyStarts entry "com.apple."
    && !installed.contains
        (if pyEnds entry ".plist"
         then ⟨entry.toList.take (entry.toList.length - 6)⟩ else entry)

/-- Orphan-scan environment for the C7 counterexample: one data root
exists and holds the single entry `com.ap.plistple.x`. -/
def envOrphanOdd : FsEnv :=
  ⟨[], fun d => d == "/Users/u/Library/Containers", fun _ => false,
   fun d => if d == "/Users/u/Library/Containers"
            then ["com.ap.plistple.x"] else [],
   [], fun _ => 0⟩

/-- C7 (counterexample): the entry `com.ap.plistple.x` qualifies under the
claim's filter (four dot-segments, its name does not begin with
`com.apple.`, nothing is installed), yet `scan_orphans` reports nothing:
the code deletes every occurrence of `.plist` — turning the name into
`com.apple.x` — and applies the vendor-prefix test to that cleaned form,
not to the name. -/
theorem scan_orphans_vendor_check_on_cleaned_name :
    orphanSpecQualifies [] "com.ap.plistple.x" = true ∧
      "/Users/u/Library/Containers" ∈ scan_dirs "/Users/u" ∧
      envOrphanOdd.pathExists "/Users/u/Library/Containers" = true ∧
      "com.ap.plistple.x" ∈ envOrphanOdd.listDir "/Users/u/Library/Containers" ∧
      scan_orphans "/Users/u" envOrphanOdd [] = [] := by
  decide

/-- C7 (amended): `scan_orphans` reports exactly the entries directly
under the existing fixed data roots that contain a dot, split into at
least three dot-delimited segments, and whose cleaned name — every
occurrence of `.plist` deleted — neither begins with `com.apple.` nor
occurs in `installedIdentifiers`; the result is sorted descending by
size. -/
theorem scan_orphans_characterization
    (home : String) (env : FsEnv) (installed : List String) :
    (∀ o : OrphanRecord, o ∈ scan_orphans home env installed →
      ∃ d ∈ scan_dirs home, env.pathExists d = true ∧
        o.name ∈ env.listDir d ∧ orphanQualifies installed o.name = true ∧
        o.path = pjoin d o.name ∧ o.size = env.entrySize (pjoin d o.name) ∧
        o.probable_id = pyRemoveAll o.name ".plist") ∧
      (∀ d ∈ scan_dirs home, env.pathExists d = true →
        ∀ entry ∈ env.listDir d, orphanQualifies installed entry = true →
          (⟨entry, pjoin d entry, env.entrySize (pjoin d entry),
            pyRemoveAll entry ".plist"⟩ : OrphanRecord) ∈
            scan_orphans home env installed) ∧
      (scan_orphans home env installed).Pairwise
        (fun a b => b.size ≤ a.size) := by
  have hperm := List.perm_insertionSort
    (fun (a b : OrphanRecord) => b.size ≤ a.size)
    ((scan_dirs home).flatMap (fun d =>
      if !env.pathExists d then []
      else
        (env.listDir d).filterMap (fun entry =>
          if orphanQualifies installed entry then
            some ⟨entry, pjoin d entry, env.entrySize (pjoin d entry),
              pyRemoveAll entry ".plist"⟩
          else none)))
  refine ⟨?_, ?_, ?_⟩
  · intro o ho
    have hraw := hperm.subset ho
    rcases List.mem_flatMap.mp hraw with ⟨d, hd, hod⟩
    refine ⟨d, hd, ?_⟩
    by_cases hex : env.pathExists d = true
    · rw [if_neg (by simp [hex])] at hod
      rcases List.mem_filterMap.mp hod with ⟨entry, hentry, heq⟩
      by_cases hq : orphanQualifies installed entry = true
      · rw [if_pos hq] at heq
        have ho' : o = ⟨entry, pjoin d entry, env.entrySize (pjoin d entry),
            pyRemoveAll entry ".plist"⟩ := by
          exact (Option.some.injEq _ _).mp heq |>.symm
        subst ho'
        exact ⟨hex, hentry, hq, rfl, rfl, rfl⟩
      · rw [if_neg hq] at heq
        cases heq
    · rw [if_pos (by simp [Bool.eq_false_iff.mpr hex])] at hod
      cases hod
  · intro d hd hex entry hentry hq
    have : (⟨entry, pjoin d entry, env.entrySize (pjoin d entry),
        pyRemoveAll entry ".plist"⟩ : OrphanRecord) ∈
        (scan_dirs home).flatMap (fun d =>
          if !env.pathExists d then []
          else
            (env.listDir d).filterMap (fun entry =>
              if orphanQualifies installed entry then
                some ⟨entry, pjoin d entry, env.entrySize (pjoin d entry),
                  pyRemoveAll entry ".plist"⟩
              else none)) := by
      refine List.mem_flatMap.mpr ⟨d, hd, ?_⟩
      rw [if_neg (by simp [hex])]
      exact List.mem_filterMap.mpr ⟨entry, hentry, by rw [if_pos hq]⟩
    exact hperm.mem_iff.mpr this
  · haveI ht : IsTotal OrphanRecord (fun a b => b.size ≤ a.size) :=
      ⟨fun a b => Nat.le_total b.size a.size⟩
    haveI htr : IsTrans OrphanRecord (fun a b => b.size ≤ a.size) :=
      ⟨fun _ _ _ hab hbc => Nat.le_trans hbc hab⟩
    exact List.sorted_insertionSort
      (fun (a b : OrphanRecord) => b.size ≤ a.size) _

/-- Orphan-scan environment realizing the spec's scenario: one data root
holding `com.c.d.e`, `com.a.b` and `com.apple.x.y`. -/
def envOrphanScenario : FsEnv :=
  ⟨[], fun d => d == "/Users/u/Library/Containers", fun _ => false,
   fun d => if d == "/Users/u/Library/Containers"
            then ["com.c.d.e", "com.a.b", "com.apple.x.y"] else [],
   [], fun _ => 0⟩

theorem scan_orphans_characterization_witness :
    (⟨"com.c.d.e", "/Users/u/Library/Containers/com.c.d.e", 0,
        "com.c.d.e"⟩ : OrphanRecord) ∈
        scan_orphans "/Users/u" envOrphanScenario ["com.a.b"] ∧
      scan_orphans "/Users/u" envOrphanScenario ["com.a.b"] =
        [⟨"com.c.d.e", "/Users/u/Library/Containers/com.c.d.e", 0,
          "com.c.d.e"⟩] :=
  ⟨(scan_orphans_characterization "/Users/u" envOrphanScenario
      ["com.a.b"]).2.1 "/Users/u/Library/Containers" (by decide) (by decide)
      "com.c.d.e" (by decide) (by decide),
   by decide⟩

/-! ## Startup items (`remove_startup_item`) -/

/-- One startup item as the manager handles it: a display name, the
`type` tag (`"Login Item"` or a launch-agent type), and the backing file
path for file-backed items. -/
structure StartupItem where
  name : String
  type : String
  path : Option String
deriving DecidableEq, Repr

/-- The observable actions of one `remove_startup_item` run, in order. -/
inductive SAction where
  | deleteLoginItem (name : String)
  | trashAttempt (path : Option String) (outcome : DeleteOutcome)
  | bootout (path : String)
  | unload (path : String)
deriving DecidableEq, Repr

/-- The filesystem after a `secure_delete` call, assuming the reversible
trash-move collaborator succeeds whenever it is issued. -/
def fsAfterDelete (fs : String → Bool) (path : Option String)
    (outcome : DeleteOutcome) : String → Bool :=
  fun q => if outcome == DeleteOutcome.trashed && path == some q
           then false else fs q

/-- Embedding of `remove_startup_item` (source lines 449-461): a login item is deleted
from the registry by name; a file-backed item is passed to the safety-gated
`secure_delete` first, and only if its backing file still exists afterwards
are the service-manager `bootout` and `unload` calls issued. -/
def remove_startup_item (home : String) (fs : String → Bool)
    (item : StartupItem) : List SAction :=
  if item.type == "Login Item" then [.deleteLoginItem item.name]
  else
    let outcome := secure_delete home fs item.path false
    let fs2 := fsAfterDelete fs item.path outcome
    SAction.trashAttempt item.path outcome ::
      (match item.path with
       | none => []
       | some s => if s != "" && fs2 s then [.bootout s, .unload s] else [])

/-- C9 (counterexample): for a file-backed launch agent whose plist exists
and is deletable, `remove_startup_item` issues the trash-move as its very
first action and never contacts the service manager at all — the claimed
unload-then-trash order does not happen. -/
theorem remove_startup_item_trash_first_no_unload :
    remove_startup_item "/Users/u" (fun _ => true)
        ⟨"x.plist", "Launch Agent", some "/Users/u/Library/LaunchAgents/x.plist"⟩
      = [SAction.trashAttempt (some "/Users/u/Library/LaunchAgents/x.plist")
          DeleteOutcome.trashed] ∧
      (remove_startup_item "/Users/u" (fun _ => true)
        ⟨"x.plist", "Launch Agent",
          some "/Users/u/Library/LaunchAgents/x.plist"⟩).all
        (fun a => match a with | SAction.unload _ => false | _ => true) = true := by
  decide

/-- C9 (amended): a login item is removed from the registry by name; a
file-backed item is first passed to the safety-gated deletion executor
(the trash-move attempt is always the first action), and the
service-manager unload is issued only as a fallback, when the backing file
still exists after that attempt. -/
theorem remove_startup_item_policy
    (home : String) (fs : String → Bool) (item : StartupItem) :
    (item.type = "Login Item" →
      remove_startup_item home fs item = [SAction.deleteLoginItem item.name]) ∧
      (item.type ≠ "Login Item" →
        (remove_startup_item home fs item).head? =
          some (SAction.trashAttempt item.path
            (secure_delete home fs item.path false)) ∧
        (∀ s, SAction.unload s ∈ remove_startup_item home fs item →
          item.path = some s ∧
            fsAfterDelete fs item.path
              (secure_delete home fs item.path false) s = true)) := by
  constructor
  · intro ht
    rw [remove_startup_item, if_pos (by simp [ht])]
  · intro ht
    have ht' : (item.type == "Login Item") = false := by
      simp [ht]
    rw [remove_startup_item, if_neg (by simp [ht'])]
    constructor
    · rfl
    · intro s hs
      simp only [List.mem_cons] at hs
      rcases hs with hs | hs
      · cases hs
      · cases hpath : item.path with
        | none =>
          rw [hpath] at hs
          cases hs
        | some q =>
          rw [hpath] at hs
          have hs' : SAction.unload s ∈
              (if (q != "" && fsAfterDelete fs (some q)
                  (secure_delete home fs (some q) false) q) = true
               then [SAction.bootout q, SAction.unload q] else []) := hs
          by_cases hcond : (q != "" && fsAfterDelete fs (some q)
              (secure_delete home fs (some q) false) q) = true
          · rw [if_pos hcond] at hs'
            simp only [List.mem_cons] at hs'
            rcases hs' with hs' | hs' | hs'
            · cases hs'
            · have hq : s = q := by injection hs'
              rw [Bool.and_eq_true] at hcond
              rw [hq]
              exact ⟨rfl, hcond.2⟩
            · cases hs'
          · rw [if_neg hcond] at hs'
            cases hs'

theorem remove_startup_item_policy_witness :
    remove_startup_item "/Users/u" (fun _ => true)
        ⟨"Dropbox", "Login Item", none⟩
      = [SAction.deleteLoginItem "Dropbox"] :=
  (remove_startup_item_policy "/Users/u" (fun _ => true)
    ⟨"Dropbox", "Login Item", none⟩).1 rfl

end AppRemover
